import Mathlib

/-!
# Verification of the web-indexer generation engine

A shallow embedding of the `webindexer` Go package: the natural-sort
comparator, the sorting pipeline, the skip filter, the local backend's
directory reader, URL resolution, the per-directory view-model builder,
and the recursive `Generate` traversal, together with theorems settling
the specification's claims about them.

Modelling conventions:
* Go strings are modelled as Lean `String`s, compared character-wise.
  All inputs appearing in the claims are ASCII, where Go's byte-wise
  operations and `unicode.IsDigit` agree with `Char`-wise operations
  and `Char.isDigit`.
* Go machine integers are modelled as `Nat` with explicit clamping
  where `strconv` clamps (see `atoiDigits`).
* Library collaborators that are not part of the repository
  (`net/url.Parse`, the `html/template` engine, the target backend's
  `EnsureDirExists`/`Write` effects) are abstracted as function
  parameters; the repository's own code is translated directly.
* `sort.SliceStable` is modelled by a stable insertion sort
  (`sliceStable`); for every comparator that is a strict weak order the
  stable sort result is unique, so the model agrees with Go's algorithm
  on all comparators used by the claims below.
-/

namespace WebIndexer

/-- Models Go `strings.HasPrefix`: `pre` is a prefix of `s`. -/
def goHasPrefix (s pre : String) : Bool :=
  pre.data.isPrefixOf s.data

/-- Models Go `strings.HasSuffix`: `suf` is a suffix of `s`. -/
def goHasSuffix (s suf : String) : Bool :=
  suf.data.isSuffixOf s.data

/-- Models Go `strings.TrimPrefix`, slicing at the character level
(identical to Go's byte slicing on ASCII). -/
def trimPrefix (s pre : String) : String :=
  if goHasPrefix s pre then String.mk (s.data.drop pre.length) else s

/-- Models Go `strings.TrimSuffix`, slicing at the character level. -/
def trimSuffix (s suf : String) : String :=
  if goHasSuffix s suf then String.mk (s.data.take (s.data.length - suf.length))
  else s

/-- Splits a character list on a separator character; `splitChar '/'`
agrees with Go's path-component split (`"/"` yields `["", ""]`, `""`
yields `[""]`). -/
def splitChar (sep : Char) : List Char → List (List Char)
  | [] => [[]]
  | c :: cs =>
    let rest := splitChar sep cs
    if c = sep then [] :: rest
    else
      match rest with
      | [] => [[c]]
      | r :: rs => (c :: r) :: rs

/-- Joins path components with `'/'`. -/
def joinSlash : List (List Char) → List Char
  | [] => []
  | [x] => x
  | x :: y :: ys => x ++ '/' :: joinSlash (y :: ys)

/-- One step of the component stack used by `cleanPath`: `""` and `"."`
components are dropped, `".."` pops the stack (kept when the stack holds
only `".."`s and the path is not rooted), anything else is pushed.
The stack is kept in reverse order. -/
def cleanStep (rooted : Bool) (st : List (List Char)) (c : List Char) :
    List (List Char) :=
  if c = [] ∨ c = ['.'] then st
  else if c = ['.', '.'] then
    match st with
    | [] => if rooted then [] else [['.', '.']]
    | top :: rest => if top = ['.', '.'] then c :: top :: rest else rest
  else c :: st

/-- Models Go `path.Clean` / `path/filepath.Clean` on Unix: resolves
`"."`, `".."` and repeated separators; empty result becomes `"."`
(or `"/"` when rooted). -/
def cleanPath (s : String) : String :=
  let rooted := goHasPrefix s "/"
  let stack := (splitChar '/' s.data).foldl (cleanStep rooted) []
  let body := joinSlash stack.reverse
  if rooted then (if body = [] then "/" else String.mk ('/' :: body))
  else (if body = [] then "." else String.mk body)

/-- Models Go `path/filepath.Dir` on Unix: everything up to and including
the final separator, cleaned; `"."` when there is no separator. -/
def goDir (path : String) : String :=
  cleanPath (String.mk (path.data.reverse.dropWhile (fun c => c ≠ '/')).reverse)

/-- Models Go `path/filepath.Base` on Unix: last element of the path after
trailing separators are removed; `"."` for the empty path, `"/"` for a
path of only separators. -/
def goBase (path : String) : String :=
  if path = "" then "."
  else
    let p := String.mk (path.data.reverse.dropWhile (fun c => c = '/')).reverse
    if p = "" then "/"
    else String.mk (p.data.reverse.takeWhile (fun c => c ≠ '/')).reverse

/-- Models Go `path.Join` (and `path/filepath.Join` on Unix): leading empty
elements are dropped, the rest are joined with `"/"` and cleaned; all-empty
input yields `""`. -/
def pathJoin (elems : List String) : String :=
  let rest := elems.dropWhile (fun e => e = "")
  if rest = [] then ""
  else cleanPath (String.mk (joinSlash (rest.map String.data)))

/-- Translation of `contains` (indexer.go): linear membership scan. -/
def contains : List String → String → Bool
  | [], _ => false
  | a :: rest, str => if a = str then true else contains rest str

/-- Translation of `shouldSkip` (indexer.go): an entry is skipped when the
index filename is a suffix of its name (Go `strings.HasSuffix`) or its
name occurs in the skip list. -/
def shouldSkip (name index : String) (skips : List String) : Bool :=
  if goHasSuffix name index then true
  else if contains skips name then true
  else false

/-- Translation of `minifyHTML` (indexer.go): strips newlines, tabs and
double spaces and collapses `"> <"`. -/
def minifyHTML (str : String) : String :=
  let str := str.replace "\n" ""
  let str := str.replace "\t" ""
  let str := str.replace "  " ""
  let str := str.replace "> <" "><"
  str

/-! ## Natural sort (sort.go) -/

/-- `unicode.IsDigit(rune(seg[0]))` for a segment: digitness of the first
character (`false` on the empty segment, which `parseSegments` never
produces). -/
def segHeadIsDigit : List Char → Bool
  | [] => false
  | c :: _ => c.isDigit

/-- Worker for `parseSegments`: the Go loop over the characters, carrying
the accumulated segments and the current segment. -/
def parseSegmentsAux : List Char → List (List Char) → List Char → List (List Char)
  | [], segments, current => if current = [] then segments else segments ++ [current]
  | c :: cs, segments, current =>
    if current = [] ∨ segHeadIsDigit current = c.isDigit then
      parseSegmentsAux cs segments (current ++ [c])
    else
      parseSegmentsAux cs (segments ++ [current]) [c]

/-- Translation of `parseSegments` (sort.go): splits a name into maximal
runs of digit / non-digit characters. -/
def parseSegments (s : String) : List (List Char) :=
  parseSegmentsAux s.data [] []

/-- Numeric value of a digit run. -/
def digitsVal (l : List Char) : Nat :=
  l.foldl (fun n c => 10 * n + (c.toNat - '0'.toNat)) 0

/-- Go's largest `int` value on 64-bit platforms. -/
def maxInt64 : Nat := 2 ^ 63 - 1

/-- Models `strconv.Atoi` on a non-empty all-digit string with the error
discarded (as `cmpNatural` does): on range overflow `ParseInt` reports
`ErrRange` and returns the maximum `int64`, so the ignored-error value is
the numeric value clamped to `maxInt64`. -/
def atoiDigits (l : List Char) : Nat :=
  min (digitsVal l) maxInt64

/-- Models Go's `<` on strings: lexicographic comparison. -/
def lexLt : List Char → List Char → Bool
  | [], [] => false
  | [], _ :: _ => true
  | _ :: _, [] => false
  | a :: as, b :: bs => if a < b then true else if b < a then false else lexLt as bs

/-- The comparison loop of `cmpNatural` (sort.go) over the two segment
lists: equal segments are skipped, digit runs compare by `Atoi` value,
a digit run sorts before a non-digit run, non-digit runs compare
lexicographically; when the common prefix of segments is exhausted the
shorter segment list sorts first. -/
def cmpSegs : List (List Char) → List (List Char) → Bool
  | a :: as, b :: bs =>
    if a = b then cmpSegs as bs
    else
      let aIsDigit := segHeadIsDigit a
      let bIsDigit := segHeadIsDigit b
      if aIsDigit && bIsDigit then decide (atoiDigits a < atoiDigits b)
      else if aIsDigit != bIsDigit then aIsDigit
      else lexLt a b
  | as, bs => decide (as.length < bs.length)

/-- Translation of `cmpNatural` (sort.go): natural comparison of two
names. -/
def cmpNatural (a b : String) : Bool :=
  cmpSegs (parseSegments a) (parseSegments b)

/-! ## The sorting pipeline (sort.go) -/

/-- Stable insert: place `x` before the first element `y` with `le x y`. -/
def orderedInsertB {α : Type} (le : α → α → Bool) (x : α) : List α → List α
  | [] => [x]
  | y :: ys => if le x y then x :: y :: ys else y :: orderedInsertB le x ys

/-- Models Go `sort.SliceStable` with comparator `less` as a stable
insertion sort.  For a comparator that is a strict weak order the stable
sort of a sequence is unique, so this agrees with Go's block-merge
algorithm on every comparator used below. -/
def sliceStable {α : Type} (less : α → α → Bool) (l : List α) : List α :=
  l.foldr (orderedInsertB (fun a b => !(less b a))) []

/-- An `Item` of the indexer: one directory entry (indexer.go).  The Go
struct also declares an `Items []Item` field that no code path ever
populates or reads; it is omitted. -/
structure Item where
  Name : String
  Size : String
  LastModified : String
  URL : String
  IsDir : Bool
deriving Repr, DecidableEq

/-- The indexer configuration (config.go).  Logging-related fields
(`LogLevel`, `LogFile`, `Quiet`, `CfgFile`, `Theme`) are not consulted by
any of the verified functions and are omitted. -/
structure Config where
  BaseURL : String := ""
  DateFormat : String := ""
  DirsFirst : Bool := false
  IndexFile : String := ""
  LinkToIndexes : Bool := false
  Minify : Bool := false
  NoIndexFiles : List String := []
  Order : String := ""
  Recursive : Bool := false
  Skips : List String := []
  SortBy : String := ""
  Source : String := ""
  Target : String := ""
  Template : String := ""
  Title : String := ""
  BasePath : String := ""

/-- `SortByDate` (config.go). -/
def SortByDate : String := "date"

/-- `SortByName` (config.go). -/
def SortByName : String := "name"

/-- `SortByNaturalName` (config.go). -/
def SortByNaturalName : String := "natural_name"

/-- `OrderAsc` (config.go). -/
def OrderAsc : String := "asc"

/-- `OrderDesc` (config.go). -/
def OrderDesc : String := "desc"

/-- Translation of `Config.SortByValue` (config.go). -/
def Config.SortByValue (c : Config) : String :=
  if c.SortBy = "last_modified" then SortByDate
  else if c.SortBy = "name" then SortByName
  else if c.SortBy = "natural_name" then SortByNaturalName
  else ""

/-- Translation of `Config.OrderByValue` (config.go). -/
def Config.OrderByValue (c : Config) : String :=
  if c.Order = "asc" then OrderAsc
  else if c.Order = "desc" then OrderDesc
  else ""

/-- Translation of `orderByName` (sort.go). -/
def orderByName (items : List Item) : List Item :=
  sliceStable (fun a b => lexLt a.Name.data b.Name.data) items

/-- Translation of `orderByLastModified` (sort.go): `less i j` is
`items[i].LastModified > items[j].LastModified`. -/
def orderByLastModified (items : List Item) : List Item :=
  sliceStable (fun a b => lexLt b.LastModified.data a.LastModified.data) items

/-- Translation of `orderByNaturalName` (sort.go). -/
def orderByNaturalName (items : List Item) : List Item :=
  sliceStable (fun a b => cmpNatural a.Name b.Name) items

/-- Translation of `orderDirsFirst` (sort.go), comparator kept literally. -/
def orderDirsFirst (items : List Item) : List Item :=
  sliceStable (fun a b =>
    if a.IsDir && !b.IsDir then true
    else if !a.IsDir && b.IsDir then false
    else false) items

/-- First statement of `Indexer.sort` (sort.go): the `switch` on
`SortByValue` (no `default` case, so an unrecognized value leaves the
items untouched). -/
def sortPrimary (cfg : Config) (items : List Item) : List Item :=
  if cfg.SortByValue = SortByDate then orderByLastModified items
  else if cfg.SortByValue = SortByName then orderByName items
  else if cfg.SortByValue = SortByNaturalName then orderByNaturalName items
  else items

/-- Second statement of `Indexer.sort` (sort.go): the descending pass,
a stable re-sort by the negated natural comparator on names. -/
def sortDescPass (items : List Item) : List Item :=
  sliceStable (fun a b => !(cmpNatural a.Name b.Name)) items

/-- `Indexer.sort` up to (and including) the descending pass: the state of
the item slice just before the `DirsFirst` step. -/
def sortPreDirs (cfg : Config) (items : List Item) : List Item :=
  let items := sortPrimary cfg items
  if cfg.OrderByValue = OrderDesc then sortDescPass items else items

/-- The indexer (indexer.go); the backends and the s3 handle are modelled
as explicit parameters of the functions that use them. -/
structure Indexer where
  Cfg : Config

/-- Translation of `Indexer.sort` (sort.go): primary key per `SortByValue`,
then the descending pass when `OrderByValue` is `desc`, then the
directories-first pass when `DirsFirst` is set. -/
def Indexer.sort (i : Indexer) (items : List Item) : List Item :=
  let items := sortPreDirs i.Cfg items
  if i.Cfg.DirsFirst then orderDirsFirst items else items

/-! ## URL resolution (indexer.go)

`net/url.Parse` and `url.URL.String` are library collaborators, not
repository code: they are abstracted as a parse oracle.  A parsed URL is
represented by its `Path` field and by its `String` rendering as a
function of the re-assigned path, which is all `joinURL` uses. -/

/-- Abstraction of a parsed `url.URL`: `path` is the `Path` field and
`render p` is what `u.String()` returns after `u.Path` is set to `p`. -/
structure GoURL where
  path : String
  render : String → String

/-- Translation of `joinURL` (indexer.go), over a parse oracle for
`url.Parse`: parse failure propagates (with `""` as the string result, as
in Go); otherwise the parts are path-joined onto the URL's path and the
URL is re-rendered. -/
def joinURL (parse : String → Option GoURL) (baseURL : String)
    (parts : List String) : Except String String :=
  match parse baseURL with
  | none => Except.error ("parse " ++ baseURL)
  | some u =>
    let joinedPath := pathJoin parts
    Except.ok (u.render (pathJoin [u.path, joinedPath]))

/-- Translation of `resolveParentPath` (indexer.go): a `joinURL` error is
only logged, leaving the `""` result in place; the index filename is
appended when linking to indexes. -/
def resolveParentPath (parse : String → Option GoURL) (baseURL parent indexFile : String)
    (linkToIndexes : Bool) : String :=
  let parentURL :=
    match joinURL parse baseURL [parent] with
    | Except.error _ => ""
    | Except.ok s => s
  if linkToIndexes then parentURL ++ indexFile else parentURL

/-- Translation of `resolveItemURL` (indexer.go): the bare name when no
base URL is configured, otherwise the joined URL (`""` when the join
fails, the error being only logged); directories get a forced trailing
slash and, when linking to indexes, the index filename. -/
def resolveItemURL (parse : String → Option GoURL) (baseURL path name : String)
    (isDir linkToIndexes : Bool) (indexFile : String) : String :=
  let url :=
    if baseURL ≠ "" then
      match joinURL parse baseURL [path, name] with
      | Except.error _ => ""
      | Except.ok s => s
    else name
  if isDir then
    let url := trimSuffix url "/" ++ "/"
    if linkToIndexes then url ++ indexFile else url
  else url

/-! ## The view model (indexer.go) -/

/-- The template data `Data` (indexer.go). -/
structure Data where
  Title : String
  Path : String
  RootPath : String
  RelativePath : String
  URL : String
  Items : List Item
  Parent : String
  HasParent : Bool
deriving Repr, DecidableEq

/-- Translation of `Indexer.formatTitle` (indexer.go): literal token
substitution into the configured title. -/
def Indexer.formatTitle (i : Indexer) (path relativePath : String) : String :=
  let title := i.Cfg.Title.replace "{source}" (goBase i.Cfg.Source)
  let title := title.replace "{target}" (goBase i.Cfg.Target)
  let title := title.replace "{path}" path
  let title := title.replace "{relativePath}" relativePath
  title

/-- Translation of `Indexer.processItemForData` (indexer.go): recomputes
the slash-normalized relative path and sets the item's URL.  The Go
version returns an always-`nil` error alongside the item. -/
def Indexer.processItemForData (i : Indexer) (parse : String → Option GoURL)
    (path : String) (item : Item) : Item :=
  let relativePath := trimPrefix path i.Cfg.BasePath
  let relativePath := if goHasPrefix relativePath "/" then relativePath
    else "/" ++ relativePath
  { item with URL := (resolveItemURL parse i.Cfg.BaseURL relativePath item.Name
      item.IsDir i.Cfg.LinkToIndexes i.Cfg.IndexFile) }

/-- Translation of `Indexer.data` (indexer.go): builds the per-directory
view model.  The Go version constructs the record and then conditionally
overwrites `Parent`/`HasParent` (initially `""`/`false`) and `Items`;
here the fields are written once with the same final values.  The Go
error result is always `nil` (`processItemForData` never fails), so the
function is total. -/
def Indexer.data (i : Indexer) (parse : String → Option GoURL)
    (items : List Item) (path : String) : Data :=
  let relativePath := trimPrefix path i.Cfg.BasePath
  let relativePath := if goHasPrefix relativePath "/" then relativePath
    else "/" ++ relativePath
  let parent := goDir path
  let relativeParent := trimPrefix parent i.Cfg.BasePath
  let relativeParent := if goHasPrefix relativeParent "/" then relativeParent
    else "/" ++ relativeParent
  { Title := i.formatTitle path relativePath
    Path := path
    RootPath := i.Cfg.BasePath
    RelativePath := relativePath
    URL := i.Cfg.BaseURL
    Items := i.sort ((items.map (i.processItemForData parse path)))
    Parent := if path = i.Cfg.BasePath then ""
      else resolveParentPath parse i.Cfg.BaseURL relativeParent i.Cfg.IndexFile
        i.Cfg.LinkToIndexes
    HasParent := if path = i.Cfg.BasePath then false else parent != path }

/-! ## The local backend (local.go)

The filesystem is modelled as a tree of nodes.  A node carries the
already-formatted size and modification time the backend would compute
from `os.Stat` (`humanizeBytes(stat.Size())` and
`stat.ModTime().Format(cfg.DateFormat)`); the I/O error returns of
`os.ReadDir`/`os.Stat` have no counterpart in the pure tree, so the
modelled `Read` cannot fail and its result omits the `error` component,
which is always `nil` in the modelled situations. -/

/-- A filesystem node: name, kind, formatted metadata, and (for
directories) the immediate children. -/
inductive FSNode where
  | mk (name : String) (isDir : Bool) (size : String) (modTime : String)
      (entries : List FSNode)

/-- The node's name. -/
def FSNode.name : FSNode → String
  | .mk n _ _ _ _ => n

/-- Whether the node is a directory. -/
def FSNode.isDir : FSNode → Bool
  | .mk _ d _ _ _ => d

/-- The node's formatted size. -/
def FSNode.size : FSNode → String
  | .mk _ _ s _ _ => s

/-- The node's formatted modification time. -/
def FSNode.modTime : FSNode → String
  | .mk _ _ _ t _ => t

/-- The node's immediate children (meaningful for directories). -/
def FSNode.entries : FSNode → List FSNode
  | .mk _ _ _ _ es => es

/-- The noindex-marker test of `LocalBackend.Read` (local.go), applied to
one listed entry: a non-directory whose name occurs in the configured
(non-empty) noindex list. -/
def isNoIndexEntry (noIndexFiles : List String) (e : FSNode) : Bool :=
  !e.isDir && decide (0 < noIndexFiles.length) && contains noIndexFiles e.name

/-- Translation of `LocalBackend.Read` (local.go) over the tree model,
returning `(items, skipEntirely)`:
1. if any listed file is a noindex marker, return `([], true)`;
2. otherwise drop entries matching `shouldSkip`, drop directories whose
   own listing contains a noindex marker (the one-level lookahead), and
   build an `Item` from each remaining entry. -/
def LocalBackend.Read (cfg : Config) (entries : List FSNode) :
    List Item × Bool :=
  if entries.any (isNoIndexEntry cfg.NoIndexFiles) then
    ([], true)
  else
    (entries.filterMap (fun e =>
      if shouldSkip e.name cfg.IndexFile cfg.Skips then none
      else if e.isDir && e.entries.any (isNoIndexEntry cfg.NoIndexFiles) then none
      else some { Name := e.name, Size := e.size, LastModified := e.modTime,
                  URL := "", IsDir := e.isDir }), false)

/-! ## The traversal engine (indexer.go)

`Generate` is embedded with its collaborators as parameters: the source
backend as a `Read` function, the template pipeline (custom-template
read, parse, execute) as a fallible render function, and the target
backend's `EnsureDirExists`/`Write` as fallible operations whose calls
are recorded in an effect trace.  Recursion is bounded by fuel: Go's
recursion is bounded by the (finite, acyclic) directory tree, which the
fuel stands in for. -/

/-- An observable backend call: a source read (one per `Generate`
invocation, so recursion is visible in the trace) or a target call. -/
inductive Effect where
  | read (path : String)
  | ensureDir (relativePath : String)
  | write (relativePath : String) (content : String)
deriving Repr, DecidableEq

/-- The collaborators of `Generate` that are not repository code:
`parse` for `net/url.Parse`, `render` for the template pipeline, and the
target's `EnsureDirExists`/`Write` results (`some e` = failure `e`). -/
structure Env where
  parse : String → Option GoURL
  render : Data → Except String String
  ensureDirErr : String → Option String
  writeErr : Data → String → Option String

/-- The write phase of `Generate` (indexer.go): when there are items,
render the view model, minify when configured, and write; an empty item
list writes nothing.  Returns the outcome and the target calls made. -/
def Indexer.writePhase (i : Indexer) (env : Env) (d : Data)
    (items : List Item) : Except String Unit × List Effect :=
  if 0 < items.length then
    match env.render d with
    | Except.error e => (Except.error e, [])
    | Except.ok generated =>
      let output := if i.Cfg.Minify then minifyHTML generated else generated
      match env.writeErr d output with
      | some e => (Except.error e, [Effect.write d.RelativePath output])
      | none => (Except.ok (), [Effect.write d.RelativePath output])
  else (Except.ok (), [])

mutual

/-- Translation of `Indexer.Generate` (indexer.go): read the source path;
on a noindex skip return immediately; otherwise build the view model,
ensure the target directory exists, run the write phase, and recurse into
the (original, unsorted) items via `parseItem`.  `source` models
`Source.Read`; out of fuel is a model artifact that no claim relies on. -/
def Indexer.Generate (i : Indexer) (env : Env)
    (source : String → Except String (List Item × Bool)) :
    Nat → String → Except String Unit × List Effect
  | 0, _ => (Except.error "recursion fuel exhausted", [])
  | fuel + 1, path =>
    match source path with
    | Except.error e => (Except.error e, [Effect.read path])
    | Except.ok (_, true) => (Except.ok (), [Effect.read path])
    | Except.ok (items, false) =>
      let d := i.data env.parse items path
      match env.ensureDirErr d.RelativePath with
      | some e =>
        (Except.error ("failed to ensure target directory exists for "
            ++ d.RelativePath ++ ": " ++ e),
         [Effect.read path, Effect.ensureDir d.RelativePath])
      | none =>
        match i.writePhase env d items with
        | (Except.error e, tr) =>
          (Except.error e, Effect.read path :: Effect.ensureDir d.RelativePath :: tr)
        | (Except.ok _, tr) =>
          let (r, tr') := i.parseItems env source fuel path items
          (r, Effect.read path :: Effect.ensureDir d.RelativePath :: (tr ++ tr'))

/-- The recursion loop of `Generate` over the items, one `parseItem`
(indexer.go) per item: directories are recursed into when the recursive
flag is set; the first error aborts the loop. -/
def Indexer.parseItems (i : Indexer) (env : Env)
    (source : String → Except String (List Item × Bool)) :
    Nat → String → List Item → Except String Unit × List Effect
  | _, _, [] => (Except.ok (), [])
  | fuel, path, item :: rest =>
    if item.IsDir && i.Cfg.Recursive then
      match i.Generate env source fuel (pathJoin [path, item.Name]) with
      | (Except.error e, tr) =>
        (Except.error ("error generating index for subdirectory "
            ++ pathJoin [path, item.Name] ++ ": " ++ e), tr)
      | (Except.ok _, tr) =>
        let (r, tr') := i.parseItems env source fuel path rest
        (r, tr ++ tr')
    else i.parseItems env source fuel path rest

end

/-! ## Concrete fixtures used by witnesses and counterexamples -/

/-- A parse oracle that rejects every base URL. -/
def noURL : String → Option GoURL := fun _ => none

/-- An indexer over the all-default configuration. -/
def ixDefault : Indexer := Indexer.mk {}

/-- Collaborators for `Generate` witnesses: parsing fails, rendering and
target operations succeed. -/
def envOk : Env :=
  { parse := noURL
    render := fun _ => Except.ok "body"
    ensureDirErr := fun _ => none
    writeErr := fun _ _ => none }

/-- A source whose every directory holds a noindex marker. -/
def srcSkipAll : String → Except String (List Item × Bool) :=
  fun _ => Except.ok ([], true)

/-- A source whose every directory is empty (and unskipped). -/
def srcEmptyDir : String → Except String (List Item × Bool) :=
  fun _ => Except.ok ([], false)

/-- A plain file item. -/
def fileItem : Item :=
  { Name := "b.txt", Size := "3 B", LastModified := "2024-01-02", URL := "", IsDir := false }

/-- A directory item. -/
def dirItem : Item :=
  { Name := "a", Size := "0 B", LastModified := "2024-01-01", URL := "", IsDir := true }

/-- A configuration sorting by name in descending order. -/
def cfgDesc : Config := { SortBy := "name", Order := "desc" }

/-- A configuration sorting by name with directories first. -/
def cfgDirsFirst : Config := { SortBy := "name", Order := "asc", DirsFirst := true }

/-- A configuration with a noindex marker name configured. -/
def cfgNoIndex : Config := { IndexFile := "index.html", NoIndexFiles := ["noindex"] }

/-- A noindex marker file node. -/
def markerNode : FSNode := FSNode.mk "noindex" false "0 B" "t" []

/-- A subdirectory containing the marker. -/
def subdirNode : FSNode := FSNode.mk "sub" true "0 B" "t" [markerNode]

/-- An ordinary file node. -/
def plainNode : FSNode := FSNode.mk "a.txt" false "1 B" "t" []

/-- A configuration whose only non-default field is the index filename. -/
def cfgIndexOnly : Config := { IndexFile := "index.html" }

/-- A file whose name merely ends in the index filename. -/
def suffixNode : FSNode := FSNode.mk "my-index.html" false "3 B" "t" []

/-- The item `LocalBackend.Read` produces for `plainNode`. -/
def readItemA : Item :=
  { Name := "a.txt", Size := "1 B", LastModified := "t", URL := "", IsDir := false }

/-! ## Helper lemmas -/

theorem contains_eq_true_iff (l : List String) (s : String) :
    contains l s = true ↔ s ∈ l := by
  induction l with
  | nil => simp [contains]
  | cons a rest ih =>
    by_cases h : a = s
    · simp [contains, h]
    · simp [contains, h, ih, Ne.symm h]

theorem orderedInsertB_perm {α : Type} (le : α → α → Bool) (x : α) (l : List α) :
    (orderedInsertB le x l).Perm (x :: l) := by
  induction l with
  | nil => exact List.Perm.refl _
  | cons y ys ih =>
    unfold orderedInsertB
    by_cases h : le x y = true
    · simp [h]
    · simp only [h]
      simp only [Bool.false_eq_true, if_false]
      exact (ih.cons y).trans (List.Perm.swap x y ys)

theorem sliceStable_perm {α : Type} (less : α → α → Bool) (l : List α) :
    (sliceStable less l).Perm l := by
  induction l with
  | nil => exact List.Perm.refl _
  | cons x xs ih =>
    unfold sliceStable at ih ⊢
    simp only [List.foldr_cons]
    exact (orderedInsertB_perm _ x _).trans (ih.cons x)

theorem sortPrimary_perm (cfg : Config) (items : List Item) :
    (sortPrimary cfg items).Perm items := by
  unfold sortPrimary orderByLastModified orderByName orderByNaturalName
  split
  · exact sliceStable_perm _ _
  · split
    · exact sliceStable_perm _ _
    · split
      · exact sliceStable_perm _ _
      · exact List.Perm.refl _

theorem sortPreDirs_perm (cfg : Config) (items : List Item) :
    (sortPreDirs cfg items).Perm items := by
  unfold sortPreDirs sortDescPass
  split
  · exact (sliceStable_perm _ _).trans (sortPrimary_perm cfg items)
  · exact sortPrimary_perm cfg items

theorem orderDirsFirst_perm (items : List Item) :
    (orderDirsFirst items).Perm items := sliceStable_perm _ _

theorem orderedInsertB_front {α : Type} (le : α → α → Bool) (x : α) (l : List α)
    (h : ∀ y ∈ l, le x y = true) :
    orderedInsertB le x l = x :: l := by
  cases l with
  | nil => rfl
  | cons y ys =>
    unfold orderedInsertB
    rw [h y (by simp)]
    simp

theorem orderedInsertB_append {α : Type} (le : α → α → Bool) (x : α) (l₁ l₂ : List α)
    (h : ∀ y ∈ l₁, le x y = false) :
    orderedInsertB le x (l₁ ++ l₂) = l₁ ++ orderedInsertB le x l₂ := by
  induction l₁ with
  | nil => simp
  | cons y ys ih =>
    simp only [List.cons_append, orderedInsertB]
    rw [h y (by simp)]
    simp only [Bool.false_eq_true, if_false, List.append_eq]
    rw [ih (fun z hz => h z (by simp [hz]))]

theorem sliceStable_partition {α : Type} (less : α → α → Bool) (p : α → Bool)
    (hless : ∀ a b, less a b = (p a && !p b)) (l : List α) :
    sliceStable less l = l.filter p ++ l.filter (fun x => !p x) := by
  induction l with
  | nil => rfl
  | cons x xs ih =>
    unfold sliceStable at ih ⊢
    simp only [List.foldr_cons]
    rw [ih]
    cases hx : p x with
    | true =>
      rw [orderedInsertB_front]
      · simp [List.filter_cons, hx]
      · intro y hy
        simp [hless, hx]
    | false =>
      rw [orderedInsertB_append]
      · rw [orderedInsertB_front]
        · simp [List.filter_cons, hx]
        · intro y hy
          have hpy : p y = false := by
            have := (List.mem_filter.mp hy).2
            simpa using this
          simp [hless, hpy]
      · intro y hy
        have hpy : p y = true := (List.mem_filter.mp hy).2
        simp [hless, hx, hpy]

theorem dirsLess_eq (a b : Item) :
    (if a.IsDir && !b.IsDir then true
     else if !a.IsDir && b.IsDir then false else false) = (a.IsDir && !b.IsDir) := by
  cases hA : a.IsDir <;> cases hB : b.IsDir <;> simp

theorem orderDirsFirst_eq_partition (l : List Item) :
    orderDirsFirst l
      = l.filter (fun it => it.IsDir) ++ l.filter (fun it => !it.IsDir) := by
  unfold orderDirsFirst
  exact sliceStable_partition _ (fun it => it.IsDir) (fun a b => dirsLess_eq a b) l

/-! ## Claim theorems -/

/-- C10: `Indexer.sort` only reorders — for every configuration and item
list, the output is a permutation of the input, so no item is added,
removed, or modified in any field. -/
theorem sort_is_permutation (i : Indexer) (items : List Item) :
    (i.sort items).Perm items := by
  unfold Indexer.sort
  split
  · exact (orderDirsFirst_perm _).trans (sortPreDirs_perm i.Cfg items)
  · exact sortPreDirs_perm i.Cfg items

/-- C2: when `Source.Read` reports `skipEntirely = true` with no error,
`Generate` returns success immediately: the trace holds only this
invocation's own read — no `EnsureDirExists`, no `Write`, and no
recursion into any subdirectory. -/
theorem generate_skips_entirely (i : Indexer) (env : Env)
    (source : String → Except String (List Item × Bool))
    (fuel : Nat) (path : String) (items : List Item)
    (h : source path = Except.ok (items, true)) :
    i.Generate env source (fuel + 1) path = (Except.ok (), [Effect.read path]) := by
  unfold Indexer.Generate
  rw [h]

/-- C3: when a directory is not skipped, `Target.EnsureDirExists` on the
view model's relative path is the first target call — before any `Write`
and before any recursion — and it happens even when the item list is
empty and nothing will be written. -/
theorem generate_ensures_dir_first (i : Indexer) (env : Env)
    (source : String → Except String (List Item × Bool))
    (fuel : Nat) (path : String) (items : List Item)
    (h : source path = Except.ok (items, false)) :
    (∃ rest, (i.Generate env source (fuel + 1) path).2
        = Effect.read path
          :: Effect.ensureDir (i.data env.parse items path).RelativePath :: rest)
    ∧ (items = [] →
        env.ensureDirErr (i.data env.parse items path).RelativePath = none →
        i.Generate env source (fuel + 1) path
          = (Except.ok (), [Effect.read path,
              Effect.ensureDir (i.data env.parse items path).RelativePath])) := by
  constructor
  · cases hDir : env.ensureDirErr (i.data env.parse items path).RelativePath with
    | some e => exact ⟨[], by simp [Indexer.Generate, h, hDir]⟩
    | none =>
      cases hw : i.writePhase env (i.data env.parse items path) items with
      | mk res tr =>
        cases res with
        | error e => exact ⟨tr, by simp [Indexer.Generate, h, hDir, hw]⟩
        | ok u =>
          exact ⟨tr ++ (i.parseItems env source fuel path items).2,
            by simp [Indexer.Generate, h, hDir, hw]⟩
  · intro hempty hDir
    subst hempty
    have hw : i.writePhase env (i.data env.parse [] path) [] = (Except.ok (), []) := by
      unfold Indexer.writePhase
      simp
    simp [Indexer.Generate, h, hDir, hw, Indexer.parseItems]

/-- C6: with `dirsFirst` enabled, the final result is the directory items
followed by the file items, each group in exactly the relative order
produced by the preceding sort stages. -/
theorem sort_dirs_first (i : Indexer) (items : List Item)
    (h : i.Cfg.DirsFirst = true) :
    i.sort items
      = (sortPreDirs i.Cfg items).filter (fun it => it.IsDir)
        ++ (sortPreDirs i.Cfg items).filter (fun it => !it.IsDir) := by
  have : i.sort items = orderDirsFirst (sortPreDirs i.Cfg items) := by
    unfold Indexer.sort
    rw [h]
    simp
  rw [this, orderDirsFirst_eq_partition]

/-- C5: with `order = desc`, `Indexer.sort` applies a stable re-sort by
the negated natural-name comparator after the primary `sortBy` stage and
before the `dirsFirst` stage, whatever the primary sort key is. -/
theorem sort_desc_inverts_natural (i : Indexer) (items : List Item)
    (h : i.Cfg.OrderByValue = OrderDesc) :
    i.sort items =
      if i.Cfg.DirsFirst then
        orderDirsFirst (sliceStable (fun a b => !(cmpNatural a.Name b.Name))
          (sortPrimary i.Cfg items))
      else
        sliceStable (fun a b => !(cmpNatural a.Name b.Name))
          (sortPrimary i.Cfg items) := by
  unfold Indexer.sort sortPreDirs sortDescPass
  rw [if_pos h]

theorem segHeadIsDigit_append (cur : List Char) (c : Char) (h : cur ≠ []) :
    segHeadIsDigit (cur ++ [c]) = segHeadIsDigit cur := by
  cases cur with
  | nil => exact absurd rfl h
  | cons d ds => rfl

theorem segHeadIsDigit_of_digits (l : List Char) (hne : l ≠ [])
    (hall : ∀ c ∈ l, c.isDigit = true) : segHeadIsDigit l = true := by
  cases l with
  | nil => exact absurd rfl hne
  | cons c cs => exact hall c (by simp)

theorem parseSegmentsAux_digits (cs : List Char) :
    ∀ (segs : List (List Char)) (cur : List Char), cur ≠ [] →
      segHeadIsDigit cur = true → (∀ c ∈ cs, c.isDigit = true) →
      parseSegmentsAux cs segs cur = segs ++ [cur ++ cs] := by
  induction cs with
  | nil =>
    intro segs cur hne _ _
    simp [parseSegmentsAux, hne]
  | cons c cs ih =>
    intro segs cur hne hdig hall
    have hc : c.isDigit = true := hall c (by simp)
    unfold parseSegmentsAux
    rw [if_pos (Or.inr (by rw [hdig, hc]))]
    rw [ih segs (cur ++ [c]) (by simp)
        (by rw [segHeadIsDigit_append _ _ hne]; exact hdig)
        (fun d hd => hall d (by simp [hd]))]
    simp

theorem parseSegments_digits (l : List Char) (hne : l ≠ [])
    (hall : ∀ c ∈ l, c.isDigit = true) :
    parseSegmentsAux l [] [] = [l] := by
  cases l with
  | nil => exact absurd rfl hne
  | cons c cs =>
    unfold parseSegmentsAux
    rw [if_pos (Or.inl rfl)]
    rw [parseSegmentsAux_digits cs [] ([] ++ [c]) (by simp)
        (by simp [segHeadIsDigit, hall c (by simp)])
        (fun d hd => hall d (by simp [hd]))]
    simp

/-- C4 (amended): on names made only of digits whose numeric values fit in
Go's 64-bit `int` (so that the ignored `strconv.Atoi` range error cannot
clamp them), `cmpNatural` coincides with numeric comparison of the
values. -/
theorem cmpNatural_eq_numeric_lt (a b : String)
    (hane : a.data ≠ []) (hbne : b.data ≠ [])
    (ha : ∀ c ∈ a.data, c.isDigit = true) (hb : ∀ c ∈ b.data, c.isDigit = true)
    (ha64 : digitsVal a.data ≤ maxInt64) (hb64 : digitsVal b.data ≤ maxInt64) :
    cmpNatural a b = decide (digitsVal a.data < digitsVal b.data) := by
  unfold cmpNatural parseSegments
  rw [parseSegments_digits a.data hane ha, parseSegments_digits b.data hbne hb]
  unfold cmpSegs
  by_cases heq : a.data = b.data
  · rw [if_pos heq, heq]
    simp [cmpSegs]
  · rw [if_neg heq]
    have hsa : segHeadIsDigit a.data = true := segHeadIsDigit_of_digits _ hane ha
    have hsb : segHeadIsDigit b.data = true := segHeadIsDigit_of_digits _ hbne hb
    simp only [hsa, hsb, Bool.and_self, if_true]
    unfold atoiDigits
    rw [min_eq_left ha64, min_eq_left hb64]

theorem any_isNoIndexEntry (ns : List String) (l : List FSNode)
    (h : ∃ e ∈ l, e.isDir = false ∧ e.name ∈ ns) :
    l.any (isNoIndexEntry ns) = true := by
  rcases h with ⟨e, he, hdir, hmem⟩
  refine List.any_eq_true.mpr ⟨e, he, ?_⟩
  unfold isNoIndexEntry
  rw [hdir]
  have hlen : 0 < ns.length := List.length_pos.mpr (List.ne_nil_of_mem hmem)
  simp [contains_eq_true_iff, hmem, hlen]

theorem mem_localRead_items (cfg : Config) (entries : List FSNode) (it : Item)
    (hit : it ∈ (LocalBackend.Read cfg entries).1) :
    ∃ e ∈ entries, it.Name = e.name
      ∧ (e.isDir = true → e.entries.any (isNoIndexEntry cfg.NoIndexFiles) = false) := by
  unfold LocalBackend.Read at hit
  by_cases htop : entries.any (isNoIndexEntry cfg.NoIndexFiles) = true
  · rw [if_pos htop] at hit
    simp at hit
  · rw [if_neg htop] at hit
    simp only at hit
    rcases List.mem_filterMap.mp hit with ⟨e, he, hfe⟩
    refine ⟨e, he, ?_⟩
    by_cases h1 : shouldSkip e.name cfg.IndexFile cfg.Skips = true
    · rw [if_pos h1] at hfe
      cases hfe
    · rw [if_neg h1] at hfe
      by_cases h2 : (e.isDir && e.entries.any (isNoIndexEntry cfg.NoIndexFiles)) = true
      · rw [if_pos h2] at hfe
        cases hfe
      · rw [if_neg h2] at hfe
        have hrec := Option.some.inj hfe
        constructor
        · rw [← hrec]
        · intro hdir
          rcases Bool.not_eq_true _ ▸ h2 with h2'
          rw [Bool.and_eq_true] at h2
          simp only [not_and] at h2
          exact Bool.not_eq_true _ ▸ fun hh => h2 hdir hh

/-- C1: a noindex marker file in a directory's listing makes the local
backend's `Read` return no items, `skipEntirely = true` (and, in the pure
filesystem model, no error is possible); and a subdirectory whose own
listing holds a marker file is omitted entirely from its parent's `Read`
items. -/
theorem localRead_noindex (cfg : Config) (entries : List FSNode) :
    ((∃ e ∈ entries, e.isDir = false ∧ e.name ∈ cfg.NoIndexFiles) →
        LocalBackend.Read cfg entries = ([], true))
    ∧ ((entries.map FSNode.name).Nodup →
        ∀ S ∈ entries, S.isDir = true →
        (∃ s ∈ S.entries, s.isDir = false ∧ s.name ∈ cfg.NoIndexFiles) →
        ∀ it ∈ (LocalBackend.Read cfg entries).1, it.Name ≠ S.name) := by
  constructor
  · intro h
    unfold LocalBackend.Read
    rw [if_pos (any_isNoIndexEntry _ _ h)]
  · intro hnodup S hS hSdir hmark it hit hname
    rcases mem_localRead_items cfg entries it hit with ⟨e, he, hename, hlook⟩
    have heS : e = S :=
      List.inj_on_of_nodup_map hnodup he hS (by rw [← hename, hname])
    subst heS
    have := hlook hSdir
    rw [any_isNoIndexEntry _ _ hmark] at this
    cases this

/-- C7 (amended): the skip filter excludes a name exactly when the
configured index filename is a *suffix* of it (Go `strings.HasSuffix`,
not equality) or it is a member of the configured skip list. -/
theorem shouldSkip_iff (name index : String) (skips : List String) :
    shouldSkip name index skips = true
      ↔ (goHasSuffix name index = true ∨ name ∈ skips) := by
  unfold shouldSkip
  by_cases h1 : goHasSuffix name index = true
  · simp [h1]
  · simp [h1, contains_eq_true_iff]

theorem goHasPrefix_slash_append (s : String) :
    goHasPrefix ("/" ++ s) "/" = true := by
  unfold goHasPrefix
  rw [List.isPrefixOf_iff_prefix, String.data_append]
  exact List.cons_prefix_cons.mpr ⟨rfl, List.nil_prefix⟩

/-- C8 (amended): the view model's relative path always begins with `/`;
`hasParent` is `false` exactly when the path equals the configured base
path *or* is its own `filepath.Dir` parent (as `"/"` is), the latter case
being what the original claim misses. -/
theorem data_relativePath_hasParent (i : Indexer) (parse : String → Option GoURL)
    (items : List Item) (path : String) :
    goHasPrefix (i.data parse items path).RelativePath "/" = true
    ∧ ((i.data parse items path).HasParent = false
        ↔ (path = i.Cfg.BasePath ∨ goDir path = path)) := by
  constructor
  · show goHasPrefix (if goHasPrefix (trimPrefix path i.Cfg.BasePath) "/" = true
        then trimPrefix path i.Cfg.BasePath
        else "/" ++ trimPrefix path i.Cfg.BasePath) "/" = true
    by_cases h : goHasPrefix (trimPrefix path i.Cfg.BasePath) "/" = true
    · rw [if_pos h]; exact h
    · rw [if_neg h]; exact goHasPrefix_slash_append _
  · show (if path = i.Cfg.BasePath then false else (goDir path != path)) = false
        ↔ (path = i.Cfg.BasePath ∨ goDir path = path)
    by_cases hp : path = i.Cfg.BasePath
    · simp [hp]
    · simp [hp, bne_eq_false_iff_eq]

/-- C9: URL resolution never surfaces a failure: `resolveItemURL` and
`resolveParentPath` are total `String`-valued functions, and when the
configured base URL does not parse the join error is only logged — the
caller receives the empty (for directories, partial) URL and generation
continues. -/
theorem urlResolution_never_fails (parse : String → Option GoURL)
    (baseURL p n par idx : String) (isDir lti : Bool)
    (hparse : parse baseURL = none) (hbase : baseURL ≠ "") :
    resolveItemURL parse baseURL p n isDir lti idx
        = (if isDir then (if lti then "/" ++ idx else "/") else "")
    ∧ resolveParentPath parse baseURL par idx lti = (if lti then idx else "") := by
  constructor
  · unfold resolveItemURL joinURL
    rw [if_pos hbase, hparse]
    cases isDir <;> cases lti <;> rfl
  · unfold resolveParentPath joinURL
    rw [hparse]
    cases lti <;> rfl

/-! ## Witnesses and counterexamples -/

/-- Witness for C1 at a concrete tree: a marked directory reads as
`([], true)`, and a marked subdirectory is absent from its parent's
items. -/
theorem localRead_noindex_witness :
    LocalBackend.Read cfgNoIndex [plainNode, markerNode] = ([], true)
    ∧ readItemA ∈ (LocalBackend.Read cfgNoIndex [plainNode, subdirNode]).1
    ∧ readItemA.Name ≠ "sub" := by
  refine ⟨?_, by decide, ?_⟩
  · exact (localRead_noindex cfgNoIndex [plainNode, markerNode]).1
      ⟨markerNode, by simp, rfl, by decide⟩
  · exact (localRead_noindex cfgNoIndex [plainNode, subdirNode]).2
      (by decide) subdirNode (by simp) rfl
      ⟨markerNode, List.mem_cons_self _ _, rfl, by decide⟩
      readItemA (by decide)

/-- Witness for C2: a skipped directory produces a successful result and
no effect beyond its own read. -/
theorem generate_skips_entirely_witness :
    srcSkipAll "/r" = Except.ok ([], true)
    ∧ ixDefault.Generate envOk srcSkipAll 1 "/r"
        = (Except.ok (), [Effect.read "/r"]) :=
  ⟨rfl, generate_skips_entirely ixDefault envOk srcSkipAll 0 "/r" [] rfl⟩

/-- Witness for C3: an empty, unskipped directory still gets its
`EnsureDirExists` call, and nothing else. -/
theorem generate_ensures_dir_first_witness :
    srcEmptyDir "/r" = Except.ok ([], false)
    ∧ ixDefault.Generate envOk srcEmptyDir 1 "/r"
        = (Except.ok (), [Effect.read "/r", Effect.ensureDir "/r"]) := by
  refine ⟨rfl, ?_⟩
  exact (generate_ensures_dir_first ixDefault envOk srcEmptyDir 0 "/r" [] rfl).2 rfl rfl

/-- Counterexample for C4 as stated: two 19-digit names whose numeric
values differ but which `cmpNatural` leaves mutually unordered, because
the ignored `strconv.Atoi` range error clamps both to the maximum
`int64`. -/
theorem cmpNatural_numeric_counterexample :
    digitsVal "9223372036854775808".data < digitsVal "9223372036854775809".data
    ∧ cmpNatural "9223372036854775808" "9223372036854775809" = false
    ∧ cmpNatural "9223372036854775809" "9223372036854775808" = false := by decide

/-- Witness for C4 (amended) at `"2"` versus `"10"`. -/
theorem cmpNatural_eq_numeric_lt_witness :
    cmpNatural "2" "10" = decide (digitsVal "2".data < digitsVal "10".data) :=
  cmpNatural_eq_numeric_lt "2" "10" (by decide) (by decide) (by decide) (by decide)
    (by decide) (by decide)

/-- Witness for C5 with `sortBy = name`, `order = desc`. -/
theorem sort_desc_inverts_natural_witness :
    (Indexer.mk cfgDesc).Cfg.OrderByValue = OrderDesc
    ∧ (Indexer.mk cfgDesc).sort [fileItem, dirItem]
        = sliceStable (fun a b => !(cmpNatural a.Name b.Name))
            (sortPrimary cfgDesc [fileItem, dirItem]) := by
  refine ⟨by decide, ?_⟩
  have h := sort_desc_inverts_natural (Indexer.mk cfgDesc) [fileItem, dirItem] (by decide)
  simpa [cfgDesc] using h

/-- Witness for C6 on a file/directory pair. -/
theorem sort_dirs_first_witness :
    (Indexer.mk cfgDirsFirst).Cfg.DirsFirst = true
    ∧ (Indexer.mk cfgDirsFirst).sort [fileItem, dirItem]
        = (sortPreDirs cfgDirsFirst [fileItem, dirItem]).filter (fun it => it.IsDir)
          ++ (sortPreDirs cfgDirsFirst [fileItem, dirItem]).filter (fun it => !it.IsDir) :=
  ⟨rfl, sort_dirs_first (Indexer.mk cfgDirsFirst) [fileItem, dirItem] rfl⟩

/-- Counterexample for C7 as stated: `"my-index.html"` neither equals the
index filename nor occurs in the skip list, yet the skip filter excludes
it (suffix match). -/
theorem skipFilter_suffix_counterexample :
    shouldSkip "my-index.html" "index.html" cfgIndexOnly.Skips = true
    ∧ (LocalBackend.Read cfgIndexOnly [suffixNode]).1 = []
    ∧ "my-index.html" ≠ "index.html"
    ∧ "my-index.html" ∉ cfgIndexOnly.Skips := by decide

/-- Counterexample for C8 as stated: indexing from the filesystem root
gives `path = "/"` with `basePath = ""`; `hasParent` is `false` although
the path differs from the root path, because `filepath.Dir "/" = "/"`. -/
theorem data_hasParent_counterexample :
    (ixDefault.data noURL [] "/").HasParent = false
    ∧ "/" ≠ ixDefault.Cfg.BasePath := by decide

/-- Witness for C9 with an unparseable base URL. -/
theorem urlResolution_never_fails_witness :
    noURL "://bad" = none ∧ ("://bad" : String) ≠ ""
    ∧ resolveItemURL noURL "://bad" "/d" "f" true true "index.html" = "/index.html"
    ∧ resolveParentPath noURL "://bad" "/p" "index.html" true = "index.html" := by
  have h := urlResolution_never_fails noURL "://bad" "/d" "f" "/p" "index.html" true true
    rfl (by decide)
  exact ⟨rfl, by decide, h.1.trans (by decide), h.2.trans (by decide)⟩

end WebIndexer
